import Mathlib

/-!
Verification of the tracking facade (`verl/utils/tracking.py`): a shallow
embedding of the backend dispatcher (`Tracking.__init__`, `Tracking.log`) and
of the parameter normalizer (`_compute_mlflow_params_from_objects`,
`_transform_params_to_json_serializable`, `_flatten_dict`), together with
theorems settling the specification's claims about them.

Python values that a configuration object may contain are modelled by the
inductive type `PyVal`: integers, strings, booleans, `None`, `pathlib.Path`
values (carried as their string form), `enum.Enum` members (carried as their
underlying `value`), lists, dicts (association lists of string keys in
insertion order, as Python dicts preserve insertion order) and dataclass
instances (`record`, a named tuple of fields). Floats are outside the model;
no claim mentions them.
-/

/-- A Python value as the tracking module manipulates it. -/
inductive PyVal where
  | int (n : Int)
  | str (s : String)
  | bool (b : Bool)
  | none
  | path (s : String)
  | enum (v : PyVal)
  | list (xs : List PyVal)
  | dict (fs : List (String × PyVal))
  | record (fs : List (String × PyVal))

/-- A Python dict with string keys, in insertion order. -/
abbrev PyDict := List (String × PyVal)

/-- Scalar leaves: numbers, strings, booleans, null (spec rule 6). -/
def isScalar : PyVal → Bool
  | .int _ => true
  | .str _ => true
  | .bool _ => true
  | .none => true
  | _ => false

/-- The recursive dict/list conversion performed by `dataclasses.asdict`:
dataclass instances and dicts become dicts field by field, lists are
converted element-wise, every other value is (deep-)copied unchanged. -/
def asdictInner : PyVal → PyVal
  | .record fs => .dict (fs.attach.map fun kv => (kv.1.1, asdictInner kv.1.2))
  | .dict fs => .dict (fs.attach.map fun kv => (kv.1.1, asdictInner kv.1.2))
  | .list xs => .list (xs.attach.map fun x => asdictInner x.1)
  | .int n => .int n
  | .str s => .str s
  | .bool b => .bool b
  | .none => .none
  | .path s => .path s
  | .enum v => .enum v
decreasing_by
  all_goals first
    | (obtain ⟨⟨k, v⟩, hm⟩ := kv
       have h1 := List.sizeOf_lt_of_mem hm
       simp at h1 ⊢
       omega)
    | (obtain ⟨v, hm⟩ := x
       have h1 := List.sizeOf_lt_of_mem hm
       simp at h1 ⊢
       omega)

/-- Member-wise induction over `PyVal`, threading through the nested lists. -/
def PyVal.inductionOn (P : PyVal → Prop)
    (hi : ∀ n, P (.int n)) (hs : ∀ s, P (.str s)) (hb : ∀ b, P (.bool b))
    (hn : P .none) (hp : ∀ s, P (.path s)) (he : ∀ v, P v → P (.enum v))
    (hl : ∀ xs, (∀ x ∈ xs, P x) → P (.list xs))
    (hd : ∀ fs, (∀ kv ∈ fs, P kv.2) → P (.dict fs))
    (hr : ∀ fs, (∀ kv ∈ fs, P kv.2) → P (.record fs)) :
    ∀ v, P v
  | .int n => hi n
  | .str s => hs s
  | .bool b => hb b
  | .none => hn
  | .path s => hp s
  | .enum v => he v (PyVal.inductionOn P hi hs hb hn hp he hl hd hr v)
  | .list xs => hl xs (fun x hx => PyVal.inductionOn P hi hs hb hn hp he hl hd hr x)
  | .dict fs => hd fs (fun kv hkv => PyVal.inductionOn P hi hs hb hn hp he hl hd hr kv.2)
  | .record fs => hr fs (fun kv hkv => PyVal.inductionOn P hi hs hb hn hp he hl hd hr kv.2)
decreasing_by
  all_goals first
    | ((have h1 := List.sizeOf_lt_of_mem hx
        simp at h1 ⊢) <;> omega)
    | ((have h1 := List.sizeOf_lt_of_mem hkv
        obtain ⟨k, v⟩ := kv
        simp at h1 ⊢) <;> omega)
    | (simp <;> omega)

/-- De-attached equation for `asdictInner` on dicts. -/
def asdictInner_dict (fs : List (String × PyVal)) :
    asdictInner (.dict fs) = .dict (fs.map fun kv => (kv.1, asdictInner kv.2)) := by
  simp only [asdictInner]
  exact congrArg PyVal.dict (List.attach_map_coe fs (fun kv => (kv.1, asdictInner kv.2)))

/-- De-attached equation for `asdictInner` on records. -/
def asdictInner_record (fs : List (String × PyVal)) :
    asdictInner (.record fs) = .dict (fs.map fun kv => (kv.1, asdictInner kv.2)) := by
  simp only [asdictInner]
  exact congrArg PyVal.dict (List.attach_map_coe fs (fun kv => (kv.1, asdictInner kv.2)))

/-- De-attached equation for `asdictInner` on lists. -/
def asdictInner_list (xs : List PyVal) :
    asdictInner (.list xs) = .list (xs.map asdictInner) := by
  simp only [asdictInner]
  exact congrArg PyVal.list (List.attach_map_coe xs asdictInner)

/-- A map that preserves the size of every member preserves the size of a
list of key-value pairs. -/
def sizeOf_map_pairs (l : List (String × PyVal)) (g : String × PyVal → String × PyVal)
    (h : ∀ kv ∈ l, sizeOf (g kv) = sizeOf kv) : sizeOf (l.map g) = sizeOf l := by
  induction l with
  | nil => rfl
  | cons a t ih =>
    simp only [List.map_cons, List.cons.sizeOf_spec]
    rw [h a (by simp), ih (fun kv hkv => h kv (by simp [hkv]))]

/-- A map that preserves the size of every member preserves the size of a
list of values. -/
def sizeOf_map_vals (l : List PyVal) (g : PyVal → PyVal)
    (h : ∀ x ∈ l, sizeOf (g x) = sizeOf x) : sizeOf (l.map g) = sizeOf l := by
  induction l with
  | nil => rfl
  | cons a t ih =>
    simp only [List.map_cons, List.cons.sizeOf_spec]
    rw [h a (by simp), ih (fun x hx => h x (by simp [hx]))]

/-- `asdictInner` preserves `sizeOf`; this justifies termination of the
transform below through the dataclass branch. -/
def sizeOf_asdictInner : ∀ v : PyVal, sizeOf (asdictInner v) = sizeOf v := by
  refine PyVal.inductionOn (fun v => sizeOf (asdictInner v) = sizeOf v) ?_ ?_ ?_ ?_ ?_ ?_ ?_ ?_ ?_
  · intro n; simp [asdictInner]
  · intro s; simp [asdictInner]
  · intro b; simp [asdictInner]
  · simp [asdictInner]
  · intro s; simp [asdictInner]
  · intro v _; simp [asdictInner]
  · intro xs ih
    rw [asdictInner_list]
    simp only [PyVal.list.sizeOf_spec]
    rw [sizeOf_map_vals xs asdictInner ih]
  · intro fs ih
    rw [asdictInner_dict]
    simp only [PyVal.dict.sizeOf_spec]
    rw [sizeOf_map_pairs fs (fun kv => (kv.1, asdictInner kv.2))]
    intro kv hkv
    obtain ⟨k, v⟩ := kv
    simp only [Prod.mk.sizeOf_spec]
    rw [ih (k, v) hkv]
  · intro fs ih
    rw [asdictInner_record]
    simp only [PyVal.dict.sizeOf_spec, PyVal.record.sizeOf_spec]
    rw [sizeOf_map_pairs fs (fun kv => (kv.1, asdictInner kv.2))]
    intro kv hkv
    obtain ⟨k, v⟩ := kv
    simp only [Prod.mk.sizeOf_spec]
    rw [ih (k, v) hkv]

/-- Shallow embedding of `_transform_params_to_json_serializable(x,
convert_list_to_dict)`. A dataclass instance is converted by
`dataclasses.asdict` and transformed as a dict (the equation
`transform_record_source_form` below restates this branch exactly as the
source writes it); a dict is transformed value by value; a list becomes,
when `convert_list_to_dict` holds, the dict with a `list_len` entry for its
length followed by one entry per element keyed by its stringified index,
and otherwise a list of transformed elements; a path becomes its string
form; an enum member becomes its underlying value; anything else passes
through unchanged. -/
def _transform_params_to_json_serializable (convert_list_to_dict : Bool) : PyVal → PyVal
  | .record fs =>
      .dict (fs.attach.map fun kv =>
        (kv.1.1, _transform_params_to_json_serializable convert_list_to_dict (asdictInner kv.1.2)))
  | .dict fs =>
      .dict (fs.attach.map fun kv =>
        (kv.1.1, _transform_params_to_json_serializable convert_list_to_dict kv.1.2))
  | .list xs =>
      if convert_list_to_dict then
        .dict (("list_len", .int (xs.length : Int)) ::
          xs.attach.enum.map fun p =>
            (toString p.1, _transform_params_to_json_serializable convert_list_to_dict p.2.1))
      else
        .list (xs.attach.map fun x =>
          _transform_params_to_json_serializable convert_list_to_dict x.1)
  | .path s => .str s
  | .enum v => v
  | .int n => .int n
  | .str s => .str s
  | .bool b => .bool b
  | .none => .none
decreasing_by
  all_goals first
    | ((rw [sizeOf_asdictInner]
        obtain ⟨⟨k, v⟩, hm⟩ := kv
        have h1 := List.sizeOf_lt_of_mem hm
        simp at h1 ⊢) <;> omega)
    | ((obtain ⟨⟨k, v⟩, hm⟩ := kv
        have h1 := List.sizeOf_lt_of_mem hm
        simp at h1 ⊢) <;> omega)
    | ((obtain ⟨i, v, hm⟩ := p
        have h1 := List.sizeOf_lt_of_mem hm
        simp at h1 ⊢) <;> omega)
    | ((obtain ⟨v, hm⟩ := x
        have h1 := List.sizeOf_lt_of_mem hm
        simp at h1 ⊢) <;> omega)

/-- Modelled from the spec: the flattening collaborator (`pandas.json_normalize`
followed by `to_dict(orient=records)[0]`) is a library outside this
repository. The spec fixes its semantics: flattening "must match the
semantics of: normalize nested records into a single-level table where each
column name is the dot/slash-joined path, then take the first (and only)
row as the result mapping, since the input is a single structured object,
not a batch". `flattenColumns sep key v` lists the columns contributed by
one entry `key: v` of that single object: a nested mapping expands into one
column per leaf with `sep`-joined names, and any other value stays a single
column. -/
def flattenColumns (sep : String) (key : String) : PyVal → PyDict
  | .dict fs => fs.attach.flatMap fun kv => flattenColumns sep (key ++ sep ++ kv.1.1) kv.1.2
  | v => [(key, v)]
decreasing_by
  all_goals
    ((obtain ⟨⟨k, v⟩, hm⟩ := kv
      have h1 := List.sizeOf_lt_of_mem hm
      simp at h1 ⊢) <;> omega)

/-- Shallow embedding of `_flatten_dict(raw, sep=sep)`: the single row of the
normalized table of the mapping `raw` (see `flattenColumns`). The row always
exists (the table of a single object, even an empty mapping, has exactly one
row) and is a mapping, so the source's `assert isinstance(ans, dict)` holds
by construction. -/
def _flatten_dict (raw : PyDict) (sep : String) : PyDict :=
  raw.flatMap fun kv => flattenColumns sep kv.1 kv.2

/-- Shallow embedding of `_compute_mlflow_params_from_objects(params)`: `None`
returns the empty mapping without any flattening; otherwise the transformed
params (with `convert_list_to_dict=True`) are flattened with separator "/".
A transformed value that is not a mapping cannot be tabulated by the
flattening collaborator (the spec defines flattening on a single structured
mapping); that failure is `Option.none`. -/
def _compute_mlflow_params_from_objects (params : Option PyVal) : Option PyDict :=
  match params with
  | Option.none => some []
  | some p =>
    match _transform_params_to_json_serializable true p with
    | .dict fs => some (_flatten_dict fs "/")
    | _ => Option.none

/-- Slash-joined key path, in the words of the spec. -/
def slashJoin : List String → String
  | [] => ""
  | [k] => k
  | k :: k2 :: ks => k ++ "/" ++ slashJoin (k2 :: ks)

/-- The leaves of a configuration value, each with the list of mapping keys
traversed from the root to reach it. -/
def leafEntries (keysSoFar : List String) : PyVal → List (List String × PyVal)
  | .dict fs => fs.attach.flatMap fun kv => leafEntries (keysSoFar ++ [kv.1.1]) kv.1.2
  | v => [(keysSoFar, v)]
decreasing_by
  all_goals
    ((obtain ⟨⟨k, v⟩, hm⟩ := kv
      have h1 := List.sizeOf_lt_of_mem hm
      simp at h1 ⊢) <;> omega)

/-- The flat mapping claim C1 describes, built from the spec's words alone:
each leaf of the configuration keyed by the slash-joined path of all mapping
keys traversed from the root to that leaf. -/
def normalizeSpec (v : PyVal) : PyDict :=
  (leafEntries [] v).map fun e => (slashJoin e.1, e.2)

/-- A configuration object consisting of nested mappings with scalar leaves. -/
inductive ScalarLeafTree : PyVal → Prop where
  | scalar (v : PyVal) : isScalar v = true → ScalarLeafTree v
  | dict (fs : List (String × PyVal)) :
      (∀ kv ∈ fs, ScalarLeafTree kv.2) → ScalarLeafTree (.dict fs)

/-- The fixed supported backend set of the `Tracking` class. -/
def Tracking.supported_backend : List String := ["wandb", "mlflow", "console"]

/-- The environment variables the wandb branch reads at construction. -/
structure Env where
  wandb_api_key : Option String
  wandb_entity : Option String

/-- A constructed logger handle stored in `self.logger`: the `wandb` module,
a `_MlflowLoggingAdapter`, or a `LocalLogger(print_to_console=...)`. -/
inductive LoggerHandle where
  | wandb
  | mlflowAdapter
  | console (print_to_console : Bool)

/-- Observable side effects of `Tracking.__init__`, in program order. -/
inductive Effect where
  | warnDeprecated
  | wandbLogin (key : String)
  | wandbInit (entity : Option String) (project : String) (experiment : String)
      (config : Option PyVal)
  | mlflowStartRun (run_name : String)
  | mlflowLogParams (params : PyDict)
  | consoleInit

/-- The state a `Tracking` object holds after construction: the
insertion-ordered backend registry `self.logger`, the side effects performed
so far, and the `self.console_logger` attribute when set. -/
structure TrackingState where
  logger : List (String × LoggerHandle)
  effects : List Effect
  console_logger : Option LoggerHandle

/-- The constructor's `default_backend` argument: a single name or a list. -/
inductive BackendArg where
  | str (s : String)
  | list (l : List String)

/-- The normalization at the top of `__init__`: a single string becomes a
one-element list. -/
def backendList : BackendArg → List String
  | .str s => [s]
  | .list l => l

/-- The validation loop of `__init__`: each requested name is checked in
order; `tracking` emits a deprecation warning, any other name outside the
supported set fails the assertion with message `f-string name is not
supported`, carrying the warnings already emitted (no backend is
constructed yet at that point). -/
def validateBackends : List String → List Effect → Except (String × List Effect) (List Effect)
  | [], acc => .ok acc
  | b :: rest, acc =>
      if b = "tracking" then validateBackends rest (acc ++ [Effect.warnDeprecated])
      else if b ∈ Tracking.supported_backend then validateBackends rest acc
      else .error (b ++ " is not supported", acc)

/-- The console branch at the end of `__init__`: when requested, a
`LocalLogger(print_to_console=True)` is constructed, stored in
`self.console_logger` and registered under `console`. -/
def consoleStep (st : TrackingState) (bs : List String) : TrackingState :=
  if "console" ∈ bs then
    ⟨st.logger ++ [("console", LoggerHandle.console true)],
     st.effects ++ [Effect.consoleInit],
     some (LoggerHandle.console true)⟩
  else st

/-- Shallow embedding of `Tracking.__init__`: validate all requested names,
then construct the requested backends in order (wandb, also taken by the
deprecated alias `tracking`; mlflow, whose `start_run` precedes
`log_params` of the flattened config; console). An error carries the state
at the moment the exception is raised. -/
def Tracking.init (project_name experiment_name : String) (default_backend : BackendArg)
    (config : Option PyVal) (env : Env) : Except (String × TrackingState) TrackingState :=
  let bs := backendList default_backend
  match validateBackends bs [] with
  | .error (msg, warns) => .error (msg, ⟨[], warns, Option.none⟩)
  | .ok warns =>
    let st0 : TrackingState := ⟨[], warns, Option.none⟩
    let st1 : TrackingState :=
      if "wandb" ∈ bs ∨ "tracking" ∈ bs then
        let loginEffects : List Effect :=
          match env.wandb_api_key with
          | some key => if key = "" then [] else [Effect.wandbLogin key]
          | Option.none => []
        ⟨st0.logger ++ [("wandb", LoggerHandle.wandb)],
         st0.effects ++ loginEffects ++
           [Effect.wandbInit env.wandb_entity project_name experiment_name config],
         st0.console_logger⟩
      else st0
    if "mlflow" ∈ bs then
      match _compute_mlflow_params_from_objects config with
      | Option.none =>
          .error ("mlflow params are not a mapping",
            ⟨st1.logger, st1.effects ++ [Effect.mlflowStartRun experiment_name],
             st1.console_logger⟩)
      | some ps =>
          .ok (consoleStep
            ⟨st1.logger ++ [("mlflow", LoggerHandle.mlflowAdapter)],
             st1.effects ++ [Effect.mlflowStartRun experiment_name, Effect.mlflowLogParams ps],
             st1.console_logger⟩ bs)
    else .ok (consoleStep st1 bs)

/-- One forwarded native logging call: which registered backend received
`data` and `step`. -/
structure LogCall where
  backend : String
  handle : LoggerHandle
  data : PyDict
  step : Int

/-- The loop of `Tracking.log`: iterate the registry in insertion order and
forward to every backend whose name passes the selector check
(`backend is None or name in backend`). -/
def logCalls (entries : List (String × LoggerHandle)) (data : PyDict) (step : Int)
    (backend : Option (List String)) : List LogCall :=
  match entries with
  | [] => []
  | (nm, h) :: rest =>
    if (match backend with
        | Option.none => true
        | some sel => decide (nm ∈ sel)) then
      ⟨nm, h, data, step⟩ :: logCalls rest data step backend
    else logCalls rest data step backend

/-- Shallow embedding of `Tracking.log(data, step, backend)`. -/
def Tracking.log (st : TrackingState) (data : PyDict) (step : Int)
    (backend : Option (List String)) : List LogCall :=
  logCalls st.logger data step backend

theorem attach_flatMap {α : Type u} {β : Type v} (l : List α) (f : α → List β) :
    (l.attach.flatMap fun x => f x.1) = l.flatMap f := by
  rw [List.flatMap_def, List.flatMap_def]
  exact congrArg List.flatten (List.attach_map_coe l f)

theorem enumFrom_map {α : Type u} {β : Type v} (g : α → β) :
    ∀ (l : List α) (n : Nat),
      (l.map g).enumFrom n = (l.enumFrom n).map fun p => (p.1, g p.2)
  | [], _ => rfl
  | a :: t, n => by
    simp only [List.map_cons, List.enumFrom_cons]
    rw [enumFrom_map g t (n + 1)]

theorem attach_enumFrom_map {α : Type u} {β : Type v} (xs : List α) (f : Nat → α → β) :
    ∀ n, (xs.attach.enumFrom n).map (fun p => f p.1 p.2.1) =
      (xs.enumFrom n).map fun p => f p.1 p.2 := by
  induction xs with
  | nil => intro n; rfl
  | cons a t ih =>
    intro n
    rw [List.attach_cons, List.enumFrom_cons, List.map_cons, enumFrom_map, List.map_map]
    exact congrArg (List.cons (f n a)) (ih (n + 1))

@[simp] theorem transform_int (c : Bool) (n : Int) :
    _transform_params_to_json_serializable c (.int n) = .int n := by
  simp [_transform_params_to_json_serializable]

@[simp] theorem transform_str (c : Bool) (s : String) :
    _transform_params_to_json_serializable c (.str s) = .str s := by
  simp [_transform_params_to_json_serializable]

@[simp] theorem transform_bool (c b : Bool) :
    _transform_params_to_json_serializable c (.bool b) = .bool b := by
  simp [_transform_params_to_json_serializable]

@[simp] theorem transform_none (c : Bool) :
    _transform_params_to_json_serializable c .none = .none := by
  simp [_transform_params_to_json_serializable]

@[simp] theorem transform_path (c : Bool) (s : String) :
    _transform_params_to_json_serializable c (.path s) = .str s := by
  simp [_transform_params_to_json_serializable]

@[simp] theorem transform_enum (c : Bool) (v : PyVal) :
    _transform_params_to_json_serializable c (.enum v) = v := by
  simp [_transform_params_to_json_serializable]

@[simp] theorem transform_dict (c : Bool) (fs : List (String × PyVal)) :
    _transform_params_to_json_serializable c (.dict fs) =
      .dict (fs.map fun kv => (kv.1, _transform_params_to_json_serializable c kv.2)) := by
  simp only [_transform_params_to_json_serializable]
  exact congrArg PyVal.dict
    (List.attach_map_coe fs (fun kv => (kv.1, _transform_params_to_json_serializable c kv.2)))

@[simp] theorem transform_record (c : Bool) (fs : List (String × PyVal)) :
    _transform_params_to_json_serializable c (.record fs) =
      .dict (fs.map fun kv =>
        (kv.1, _transform_params_to_json_serializable c (asdictInner kv.2))) := by
  simp only [_transform_params_to_json_serializable]
  exact congrArg PyVal.dict
    (List.attach_map_coe fs
      (fun kv => (kv.1, _transform_params_to_json_serializable c (asdictInner kv.2))))

/-- The dataclass branch exactly as the source writes it:
`_transform(dataclasses.asdict(x))`. -/
theorem transform_record_source_form (c : Bool) (fs : List (String × PyVal)) :
    _transform_params_to_json_serializable c (.record fs) =
      _transform_params_to_json_serializable c (asdictInner (.record fs)) := by
  rw [transform_record, asdictInner_record, transform_dict, List.map_map]
  rfl

@[simp] theorem transform_list_false (xs : List PyVal) :
    _transform_params_to_json_serializable false (.list xs) =
      .list (xs.map (_transform_params_to_json_serializable false)) := by
  simp only [_transform_params_to_json_serializable]
  rw [if_neg (by simp)]
  exact congrArg PyVal.list
    (List.attach_map_coe xs (_transform_params_to_json_serializable false))

@[simp] theorem transform_list_true (xs : List PyVal) :
    _transform_params_to_json_serializable true (.list xs) =
      .dict (("list_len", .int (xs.length : Int)) ::
        xs.enum.map fun p => (toString p.1, _transform_params_to_json_serializable true p.2)) := by
  simp only [_transform_params_to_json_serializable, if_true]
  exact congrArg (fun t => PyVal.dict (("list_len", PyVal.int (xs.length : Int)) :: t))
    (attach_enumFrom_map xs
      (fun i v => (toString i, _transform_params_to_json_serializable true v)) 0)

@[simp] theorem flattenColumns_dict (sep key : String) (fs : List (String × PyVal)) :
    flattenColumns sep key (.dict fs) =
      fs.flatMap fun kv => flattenColumns sep (key ++ sep ++ kv.1) kv.2 := by
  simp only [flattenColumns]
  exact attach_flatMap fs (fun kv => flattenColumns sep (key ++ sep ++ kv.1) kv.2)

theorem flattenColumns_leaf (sep key : String) (v : PyVal) (h : ∀ fs, v ≠ .dict fs) :
    flattenColumns sep key v = [(key, v)] := by
  cases v with
  | dict fs => exact absurd rfl (h fs)
  | int n => simp [flattenColumns]
  | str s => simp [flattenColumns]
  | bool b => simp [flattenColumns]
  | none => simp [flattenColumns]
  | path s => simp [flattenColumns]
  | enum v => simp [flattenColumns]
  | list xs => simp [flattenColumns]
  | record fs => simp [flattenColumns]

@[simp] theorem leafEntries_dict (acc : List String) (fs : List (String × PyVal)) :
    leafEntries acc (.dict fs) =
      fs.flatMap fun kv => leafEntries (acc ++ [kv.1]) kv.2 := by
  simp only [leafEntries]
  exact attach_flatMap fs (fun kv => leafEntries (acc ++ [kv.1]) kv.2)

theorem leafEntries_leaf (acc : List String) (v : PyVal) (h : ∀ fs, v ≠ .dict fs) :
    leafEntries acc v = [(acc, v)] := by
  cases v with
  | dict fs => exact absurd rfl (h fs)
  | int n => simp [leafEntries]
  | str s => simp [leafEntries]
  | bool b => simp [leafEntries]
  | none => simp [leafEntries]
  | path s => simp [leafEntries]
  | enum v => simp [leafEntries]
  | list xs => simp [leafEntries]
  | record fs => simp [leafEntries]

theorem transform_scalar (c : Bool) (v : PyVal) (h : isScalar v = true) :
    _transform_params_to_json_serializable c v = v := by
  cases v <;> simp_all [isScalar]

theorem flattenColumns_scalar (sep key : String) (v : PyVal) (h : isScalar v = true) :
    flattenColumns sep key v = [(key, v)] := by
  cases v <;> simp_all [isScalar, flattenColumns]

theorem slashJoin_glue (a b : String) (l : List String) :
    slashJoin ((a ++ "/" ++ b) :: l) = slashJoin (a :: b :: l) := by
  cases l with
  | nil => simp [slashJoin]
  | cons c cs => simp [slashJoin, String.append_assoc]

theorem leafEntries_acc :
    ∀ v : PyVal, ∀ acc : List String,
      leafEntries acc v = (leafEntries [] v).map fun e => (acc ++ e.1, e.2) := by
  refine PyVal.inductionOn
    (fun v => ∀ acc, leafEntries acc v = (leafEntries [] v).map fun e => (acc ++ e.1, e.2))
    ?_ ?_ ?_ ?_ ?_ ?_ ?_ ?_ ?_
  · intro n acc; simp [leafEntries]
  · intro s acc; simp [leafEntries]
  · intro b acc; simp [leafEntries]
  · intro acc; simp [leafEntries]
  · intro s acc; simp [leafEntries]
  · intro v _ acc; simp [leafEntries]
  · intro xs _ acc; simp [leafEntries]
  · intro fs ih acc
    rw [leafEntries_dict, leafEntries_dict, List.map_flatMap, List.flatMap_def,
      List.flatMap_def]
    refine congrArg List.flatten (List.map_congr_left ?_)
    intro kv hkv
    rw [ih kv hkv (acc ++ [kv.1]), ih kv hkv ([] ++ [kv.1]), List.map_map]
    refine List.map_congr_left ?_
    intro e he
    simp [List.append_assoc]
  · intro fs _ acc; simp [leafEntries]

theorem flattenColumns_spec :
    ∀ v : PyVal, ∀ key : String,
      flattenColumns "/" key v =
        (leafEntries [] v).map fun e => (slashJoin (key :: e.1), e.2) := by
  refine PyVal.inductionOn
    (fun v => ∀ key, flattenColumns "/" key v =
      (leafEntries [] v).map fun e => (slashJoin (key :: e.1), e.2))
    ?_ ?_ ?_ ?_ ?_ ?_ ?_ ?_ ?_
  · intro n key; simp [leafEntries, flattenColumns, slashJoin]
  · intro s key; simp [leafEntries, flattenColumns, slashJoin]
  · intro b key; simp [leafEntries, flattenColumns, slashJoin]
  · intro key; simp [leafEntries, flattenColumns, slashJoin]
  · intro s key; simp [leafEntries, flattenColumns, slashJoin]
  · intro v _ key; simp [leafEntries, flattenColumns, slashJoin]
  · intro xs _ key; simp [leafEntries, flattenColumns, slashJoin]
  · intro fs ih key
    rw [flattenColumns_dict, leafEntries_dict, List.map_flatMap, List.flatMap_def,
      List.flatMap_def]
    refine congrArg List.flatten (List.map_congr_left ?_)
    intro kv hkv
    rw [ih kv hkv (key ++ "/" ++ kv.1), leafEntries_acc kv.2 ([] ++ [kv.1]), List.map_map]
    refine List.map_congr_left ?_
    intro e he
    simp only [Function.comp_apply, List.nil_append, List.singleton_append]
    rw [slashJoin_glue]
  · intro fs _ key; simp [leafEntries, flattenColumns, slashJoin]

theorem transform_scalarLeafTree (c : Bool) {v : PyVal} (h : ScalarLeafTree v) :
    _transform_params_to_json_serializable c v = v := by
  induction h with
  | scalar v hv => exact transform_scalar c v hv
  | dict fs hfs ih =>
    rw [transform_dict]
    have h2 : (fs.map fun kv => (kv.1, _transform_params_to_json_serializable c kv.2)) =
        fs.map id := List.map_congr_left (fun kv hkv => by rw [ih kv hkv]; rfl)
    rw [h2, List.map_id]

theorem compute_some_eq (p : PyVal) (fs : PyDict)
    (h : _transform_params_to_json_serializable true p = .dict fs) :
    _compute_mlflow_params_from_objects (some p) = some (_flatten_dict fs "/") := by
  simp only [_compute_mlflow_params_from_objects]
  rw [h]

/-- C1: for every configuration object consisting of nested mappings with
scalar leaves, the normalizer produces the flat mapping in which each leaf is
keyed by the slash-joined path of all mapping keys traversed from the root to
that leaf (`normalizeSpec`, written from the claim); in particular
normalize({"a": {"b": 1}}) equals {"a/b": 1} (the witness). -/
theorem C1_nested_mappings_flatten_to_slash_joined_paths (fs : PyDict)
    (h : ScalarLeafTree (.dict fs)) :
    _compute_mlflow_params_from_objects (some (.dict fs)) =
      some (normalizeSpec (.dict fs)) := by
  rw [compute_some_eq (.dict fs) fs (transform_scalarLeafTree true h)]
  refine congrArg some ?_
  simp only [_flatten_dict, normalizeSpec]
  rw [leafEntries_dict, List.map_flatMap, List.flatMap_def, List.flatMap_def]
  refine congrArg List.flatten (List.map_congr_left ?_)
  intro kv hkv
  rw [flattenColumns_spec kv.2 kv.1, leafEntries_acc kv.2 ([] ++ [kv.1]), List.map_map]
  refine List.map_congr_left ?_
  intro e he
  simp [List.nil_append, List.singleton_append]

/-- Witness for C1: normalize({"a": {"b": 1}}) equals {"a/b": 1}. -/
theorem C1_witness :
    ScalarLeafTree (.dict [("a", .dict [("b", .int 1)])])
    ∧ _compute_mlflow_params_from_objects
        (some (.dict [("a", .dict [("b", .int 1)])])) = some [("a/b", .int 1)] := by
  have htree : ScalarLeafTree (.dict [("a", .dict [("b", .int 1)])]) := by
    refine ScalarLeafTree.dict _ ?_
    intro kv hkv
    simp only [List.mem_singleton] at hkv
    subst hkv
    refine ScalarLeafTree.dict _ ?_
    intro kv2 hkv2
    simp only [List.mem_singleton] at hkv2
    subst hkv2
    exact ScalarLeafTree.scalar _ rfl
  refine ⟨htree, ?_⟩
  rw [C1_nested_mappings_flatten_to_slash_joined_paths _ htree]
  refine congrArg some ?_
  simp [normalizeSpec, leafEntries, slashJoin]

/-- C2: under the default convert_list_to_dict mode a sequence becomes the
mapping with a list_len entry for its length plus one entry per element
keyed by its stringified index, each element independently transformed; so
normalize({"items": [10, 20]}) equals
{"items/list_len": 2, "items/0": 10, "items/1": 20}, and
normalize({"items": []}) equals {"items/list_len": 0} with no indexed
entries. -/
theorem C2_sequences_become_indexed_mappings :
    (∀ xs : List PyVal,
      _transform_params_to_json_serializable true (.list xs) =
        .dict (("list_len", .int (xs.length : Int)) ::
          xs.enum.map fun p =>
            (toString p.1, _transform_params_to_json_serializable true p.2)))
    ∧ _compute_mlflow_params_from_objects
        (some (.dict [("items", .list [.int 10, .int 20])])) =
        some [("items/list_len", .int 2), ("items/0", .int 10), ("items/1", .int 20)]
    ∧ _compute_mlflow_params_from_objects (some (.dict [("items", .list [])])) =
        some [("items/list_len", .int 0)] := by
  refine ⟨transform_list_true, ?_, ?_⟩
  · simp [_compute_mlflow_params_from_objects, _flatten_dict, List.enum, flattenColumns]
    decide
  · simp [_compute_mlflow_params_from_objects, _flatten_dict, List.enum, flattenColumns]

/-- C6: normalize(None) returns an empty mapping; the `Option.none` branch of
`_compute_mlflow_params_from_objects` returns it directly, before any
flattening step. -/
theorem C6_none_config_empty_mapping :
    _compute_mlflow_params_from_objects Option.none = some [] := rfl

/-- C7: a path leaf normalizes to its string form, an enum leaf to its
underlying stored value, and any other scalar passes through unchanged; the
last three conjuncts state this through the full normalizer for a leaf under
a single key. -/
theorem C7_path_enum_scalar_leaves :
    (∀ (c : Bool) (s : String),
      _transform_params_to_json_serializable c (.path s) = .str s)
    ∧ (∀ (c : Bool) (v : PyVal),
      _transform_params_to_json_serializable c (.enum v) = v)
    ∧ (∀ (c : Bool) (v : PyVal), isScalar v = true →
      _transform_params_to_json_serializable c v = v)
    ∧ (∀ (key s : String),
      _compute_mlflow_params_from_objects (some (.dict [(key, .path s)])) =
        some [(key, .str s)])
    ∧ (∀ (key : String) (v : PyVal), isScalar v = true →
      _compute_mlflow_params_from_objects (some (.dict [(key, .enum v)])) =
        some [(key, v)])
    ∧ (∀ (key : String) (v : PyVal), isScalar v = true →
      _compute_mlflow_params_from_objects (some (.dict [(key, v)])) =
        some [(key, v)]) := by
  refine ⟨transform_path, transform_enum, transform_scalar, ?_, ?_, ?_⟩
  · intro key s
    rw [compute_some_eq _ [(key, .str s)] (by rw [transform_dict]; simp)]
    simp [_flatten_dict, flattenColumns]
  · intro key v hv
    rw [compute_some_eq _ [(key, v)] (by rw [transform_dict]; simp)]
    simp only [_flatten_dict, List.flatMap_cons, List.flatMap_nil, List.append_nil]
    rw [flattenColumns_scalar _ _ _ hv]
  · intro key v hv
    rw [compute_some_eq _ [(key, v)]
      (by rw [transform_dict]; simp; rw [transform_scalar true v hv])]
    simp only [_flatten_dict, List.flatMap_cons, List.flatMap_nil, List.append_nil]
    rw [flattenColumns_scalar _ _ _ hv]

/-- Witness for C7: a path under "p" flattens to its string form, an enum
under "e" to its underlying value, a plain int under "n" passes through. -/
theorem C7_witness :
    isScalar (PyVal.int 5) = true
    ∧ _compute_mlflow_params_from_objects (some (.dict [("p", .path "/tmp/x")])) =
        some [("p", .str "/tmp/x")]
    ∧ _compute_mlflow_params_from_objects (some (.dict [("e", .enum (.int 5))])) =
        some [("e", .int 5)]
    ∧ _compute_mlflow_params_from_objects (some (.dict [("n", .int 5)])) =
        some [("n", .int 5)] :=
  ⟨rfl,
   C7_path_enum_scalar_leaves.2.2.2.1 "p" "/tmp/x",
   C7_path_enum_scalar_leaves.2.2.2.2.1 "e" (.int 5) rfl,
   C7_path_enum_scalar_leaves.2.2.2.2.2 "n" (.int 5) rfl⟩

/-- C8: the caller-selectable flag convert_list_to_dict decides whether a
sequence stays a sequence of recursively transformed elements (flag false)
or becomes the indexed mapping with list_len (flag true). -/
theorem C8_convert_list_to_dict_flag (xs : List PyVal) :
    _transform_params_to_json_serializable false (.list xs) =
      .list (xs.map (_transform_params_to_json_serializable false))
    ∧ _transform_params_to_json_serializable true (.list xs) =
      .dict (("list_len", .int (xs.length : Int)) ::
        xs.enum.map fun p =>
          (toString p.1, _transform_params_to_json_serializable true p.2)) :=
  ⟨transform_list_false xs, transform_list_true xs⟩

/-- C9: a mapping that is already flat, one level deep with scalar leaves, is
returned unchanged by the normalizer. -/
theorem C9_flat_mapping_returned_unchanged (fs : PyDict)
    (h : ∀ kv ∈ fs, isScalar kv.2 = true) :
    _compute_mlflow_params_from_objects (some (.dict fs)) = some fs := by
  have ht : _transform_params_to_json_serializable true (.dict fs) = .dict fs := by
    rw [transform_dict]
    have h2 : (fs.map fun kv =>
        (kv.1, _transform_params_to_json_serializable true kv.2)) = fs.map id :=
      List.map_congr_left (fun kv hkv => by rw [transform_scalar true kv.2 (h kv hkv)]; rfl)
    rw [h2, List.map_id]
  rw [compute_some_eq _ fs ht]
  refine congrArg some ?_
  simp only [_flatten_dict]
  have h2 : (fs.flatMap fun kv => flattenColumns "/" kv.1 kv.2) =
      fs.flatMap fun kv => [kv] := by
    rw [List.flatMap_def, List.flatMap_def]
    refine congrArg List.flatten (List.map_congr_left ?_)
    intro kv hkv
    rw [flattenColumns_scalar _ _ _ (h kv hkv)]
  rw [h2, List.flatMap_singleton']

/-- Witness for C9: an already-flat mapping with two scalar entries comes
back unchanged. -/
theorem C9_witness :
    (∀ kv ∈ ([("lr", PyVal.str "1e-3"), ("epochs", PyVal.int 3)] : PyDict),
      isScalar kv.2 = true)
    ∧ _compute_mlflow_params_from_objects
        (some (.dict [("lr", .str "1e-3"), ("epochs", .int 3)])) =
        some [("lr", .str "1e-3"), ("epochs", .int 3)] := by
  have h : ∀ kv ∈ ([("lr", PyVal.str "1e-3"), ("epochs", PyVal.int 3)] : PyDict),
      isScalar kv.2 = true := by
    intro kv hkv
    rcases List.mem_cons.mp hkv with h1 | h1
    · subst h1; rfl
    · rcases List.mem_singleton.mp h1 with h2
      subst h2; rfl
  exact ⟨h, C9_flat_mapping_returned_unchanged _ h⟩

/-- C10 amended: normalize({}) does not fail; the table of a single empty
mapping has exactly one, empty, row, so the first-row access succeeds and
the normalizer returns the empty mapping, as for normalize(None) but through
the flattening path. -/
theorem C10_empty_mapping_flattens_to_empty :
    _compute_mlflow_params_from_objects (some (.dict [])) = some [] := by
  rw [compute_some_eq (.dict []) [] (by rw [transform_dict]; simp)]
  rfl

/-- Counterexample to C10 as stated: at the concrete input {}, the normalizer
does not raise an out-of-range error; it returns a value. -/
theorem C10_counterexample_empty_mapping_does_not_fail :
    _compute_mlflow_params_from_objects (some (.dict [])) ≠ Option.none := by
  rw [compute_some_eq (.dict []) [] (by rw [transform_dict]; simp)]
  simp

theorem logCalls_none (data : PyDict) (step : Int) (entries : List (String × LoggerHandle)) :
    logCalls entries data step Option.none =
      entries.map fun e => ⟨e.1, e.2, data, step⟩ := by
  induction entries with
  | nil => rfl
  | cons e rest ih =>
    obtain ⟨nm, h⟩ := e
    simp [logCalls, ih]

theorem logCalls_some (data : PyDict) (step : Int) (sel : List String)
    (entries : List (String × LoggerHandle)) :
    logCalls entries data step (some sel) =
      (entries.filter fun e => decide (e.1 ∈ sel)).map fun e => ⟨e.1, e.2, data, step⟩ := by
  induction entries with
  | nil => rfl
  | cons e rest ih =>
    obtain ⟨nm, h⟩ := e
    by_cases hm : nm ∈ sel
    · simp [logCalls, List.filter_cons, hm, ih]
    · simp [logCalls, List.filter_cons, hm, ih]

/-- C5: log(data, step, backend) forwards data and step to the native log
call of exactly those constructed backends whose name is in the selector, in
registry order; with the selector unset, to every constructed backend; a
backend not named in an explicit selector is never invoked. -/
theorem C5_log_forwards_to_selected_backends (st : TrackingState) (data : PyDict) (step : Int) :
    Tracking.log st data step Option.none =
      (st.logger.map fun e => ⟨e.1, e.2, data, step⟩)
    ∧ (∀ sel, Tracking.log st data step (some sel) =
        ((st.logger.filter fun e => decide (e.1 ∈ sel)).map fun e => ⟨e.1, e.2, data, step⟩))
    ∧ (∀ sel nm, nm ∉ sel →
        ∀ call ∈ Tracking.log st data step (some sel), call.backend ≠ nm) := by
  refine ⟨logCalls_none data step st.logger, fun sel => logCalls_some data step sel st.logger, ?_⟩
  intro sel nm hnm call hcall
  simp only [Tracking.log] at hcall
  rw [logCalls_some] at hcall
  obtain ⟨e, he, hcallEq⟩ := List.mem_map.mp hcall
  have hf : decide (e.1 ∈ sel) = true := (List.mem_filter.mp he).2
  have hmem : e.1 ∈ sel := of_decide_eq_true hf
  intro hEq
  apply hnm
  rw [← hcallEq] at hEq
  rw [← hEq]
  exact hmem

/-- Witness for C5: with wandb and console registered, the selector
["console"] delivers to console only, and wandb is never invoked. -/
theorem C5_witness :
    ("wandb" ∉ (["console"] : List String))
    ∧ Tracking.log ⟨[("wandb", .wandb), ("console", .console true)], [], Option.none⟩
        [] 3 (some ["console"]) = [⟨"console", .console true, [], 3⟩]
    ∧ ∀ call ∈ Tracking.log
        ⟨[("wandb", .wandb), ("console", .console true)], [], Option.none⟩
        [] 3 (some ["console"]), call.backend ≠ "wandb" := by
  have h1 : "wandb" ∉ (["console"] : List String) := by simp
  refine ⟨h1, ?_,
    (C5_log_forwards_to_selected_backends
      ⟨[("wandb", .wandb), ("console", .console true)], [], Option.none⟩ [] 3).2.2
      ["console"] "wandb" h1⟩
  rw [(C5_log_forwards_to_selected_backends
    ⟨[("wandb", .wandb), ("console", .console true)], [], Option.none⟩ [] 3).2.1 ["console"]]
  simp [List.filter_cons]

theorem validateBackends_error (bs : List String) :
    ∀ acc, (∃ b ∈ bs, b ∉ Tracking.supported_backend ∧ b ≠ "tracking") →
      (∀ e ∈ acc, e = Effect.warnDeprecated) →
      ∃ msg ws, validateBackends bs acc = .error (msg, ws)
        ∧ ∀ e ∈ ws, e = Effect.warnDeprecated := by
  induction bs with
  | nil => intro acc h _; simp at h
  | cons b rest ih =>
    intro acc h hacc
    by_cases hb : b = "tracking"
    · subst hb
      obtain ⟨x, hx, hxs, hxt⟩ := h
      rcases List.mem_cons.mp hx with h1 | h1
      · exact absurd h1 hxt
      · have hacc2 : ∀ e ∈ acc ++ [Effect.warnDeprecated], e = Effect.warnDeprecated := by
          intro e he
          rcases List.mem_append.mp he with h2 | h2
          · exact hacc e h2
          · simpa using h2
        obtain ⟨msg, ws, hv, hw⟩ := ih (acc ++ [Effect.warnDeprecated]) ⟨x, h1, hxs, hxt⟩ hacc2
        refine ⟨msg, ws, ?_, hw⟩
        simp only [validateBackends, if_pos rfl]
        exact hv
    · by_cases hs : b ∈ Tracking.supported_backend
      · obtain ⟨x, hx, hxs, hxt⟩ := h
        rcases List.mem_cons.mp hx with h1 | h1
        · subst h1; exact absurd hs hxs
        · obtain ⟨msg, ws, hv, hw⟩ := ih acc ⟨x, h1, hxs, hxt⟩ hacc
          refine ⟨msg, ws, ?_, hw⟩
          simp only [validateBackends, if_neg hb, if_pos hs]
          exact hv
      · refine ⟨b ++ " is not supported", acc, ?_, hacc⟩
        simp only [validateBackends, if_neg hb, if_neg hs]

/-- C3: a backend list holding a name that is neither supported nor the
deprecated alias makes construction fail by assertion during validation: the
raised failure carries an empty backend registry and no effect beyond
deprecation warnings for earlier alias entries, so no backend was
initialized when it is raised. -/
theorem C3_unsupported_backend_fails_before_init (pn en : String) (bs : List String)
    (config : Option PyVal) (env : Env)
    (h : ∃ b ∈ bs, b ∉ Tracking.supported_backend ∧ b ≠ "tracking") :
    ∃ msg st, Tracking.init pn en (.list bs) config env = .error (msg, st)
      ∧ st.logger = []
      ∧ ∀ e ∈ st.effects, e = Effect.warnDeprecated := by
  obtain ⟨msg, ws, hv, hw⟩ := validateBackends_error bs [] h (by simp)
  refine ⟨msg, ⟨[], ws, Option.none⟩, ?_, rfl, hw⟩
  simp only [Tracking.init, backendList]
  rw [hv]

/-- Witness for C3: the list ["console", "bogus"] makes construction fail
with an empty registry. -/
theorem C3_witness :
    (∃ b ∈ (["console", "bogus"] : List String),
        b ∉ Tracking.supported_backend ∧ b ≠ "tracking")
    ∧ ∃ msg st,
        Tracking.init "proj" "exp" (.list ["console", "bogus"]) Option.none
          ⟨Option.none, Option.none⟩ = .error (msg, st)
        ∧ st.logger = []
        ∧ ∀ e ∈ st.effects, e = Effect.warnDeprecated := by
  have hbad : ∃ b ∈ (["console", "bogus"] : List String),
      b ∉ Tracking.supported_backend ∧ b ≠ "tracking" := by
    refine ⟨"bogus", by simp, ?_, by simp⟩
    simp [Tracking.supported_backend]
  exact ⟨hbad, C3_unsupported_backend_fails_before_init "proj" "exp" _ _ _ hbad⟩

theorem init_single_supported_name :
    ∀ b ∈ Tracking.supported_backend,
      ∀ (pn en : String) (config : Option PyVal) (env : Env) (ps : PyDict),
      _compute_mlflow_params_from_objects config = some ps →
      ∃ st, Tracking.init pn en (.list [b]) config env = .ok st
        ∧ st.logger.map Prod.fst = [b] := by
  intro b hb pn en config env ps hps
  have hb3 : b = "wandb" ∨ b = "mlflow" ∨ b = "console" := by
    simpa [Tracking.supported_backend] using hb
  rcases hb3 with rfl | rfl | rfl
  · simp [Tracking.init, backendList, validateBackends, consoleStep, Tracking.supported_backend]
  · simp [Tracking.init, backendList, validateBackends, consoleStep,
      Tracking.supported_backend, hps]
  · simp [Tracking.init, backendList, validateBackends, consoleStep, Tracking.supported_backend]

theorem init_tracking_alias (pn en : String) (config : Option PyVal) (env : Env) :
    ∃ st, Tracking.init pn en (.list ["tracking"]) config env = .ok st
      ∧ st.logger.map Prod.fst = ["wandb"]
      ∧ Effect.warnDeprecated ∈ st.effects := by
  simp [Tracking.init, backendList, validateBackends, consoleStep, Tracking.supported_backend]

theorem init_registry_names_supported (pn en : String) (arg : BackendArg)
    (config : Option PyVal) (env : Env) (st : TrackingState)
    (hok : Tracking.init pn en arg config env = .ok st) :
    ∀ nm ∈ st.logger.map Prod.fst, nm ∈ Tracking.supported_backend := by
  intro nm hnm
  simp only [Tracking.init] at hok
  by_cases h1 : "wandb" ∈ backendList arg ∨ "tracking" ∈ backendList arg
    <;> by_cases h2 : "mlflow" ∈ backendList arg
    <;> by_cases h3 : "console" ∈ backendList arg
    <;> rcases hval : validateBackends (backendList arg) [] with e | warns
    <;> simp only [hval, h1, h2, h3, consoleStep, if_true, if_false, reduceIte] at hok
    <;> try (cases hcw : _compute_mlflow_params_from_objects config
             <;> simp only [hcw] at hok)
  all_goals try exact (Except.noConfusion hok)
  all_goals injection hok with h4
  all_goals subst h4
  all_goals first
    | (simp_all [Tracking.supported_backend]; tauto)
    | simp_all [Tracking.supported_backend]

/-- C4: constructing with a single supported name yields a registry holding
exactly that backend; the deprecated alias tracking yields exactly the wandb
backend with a deprecation warning emitted; and every registry key of any
successful construction belongs to the fixed supported set. -/
theorem C4_registry_contents :
    (∀ b ∈ Tracking.supported_backend,
      ∀ (pn en : String) (config : Option PyVal) (env : Env) (ps : PyDict),
      _compute_mlflow_params_from_objects config = some ps →
      ∃ st, Tracking.init pn en (.list [b]) config env = .ok st
        ∧ st.logger.map Prod.fst = [b])
    ∧ (∀ (pn en : String) (config : Option PyVal) (env : Env),
      ∃ st, Tracking.init pn en (.list ["tracking"]) config env = .ok st
        ∧ st.logger.map Prod.fst = ["wandb"]
        ∧ Effect.warnDeprecated ∈ st.effects)
    ∧ (∀ (pn en : String) (arg : BackendArg) (config : Option PyVal) (env : Env)
        (st : TrackingState),
      Tracking.init pn en arg config env = .ok st →
      ∀ nm ∈ st.logger.map Prod.fst, nm ∈ Tracking.supported_backend) :=
  ⟨init_single_supported_name, init_tracking_alias,
   fun pn en arg config env st hok => init_registry_names_supported pn en arg config env st hok⟩

/-- Witness for C4: constructing with only console yields a registry of
exactly the console backend. -/
theorem C4_witness :
    ("console" ∈ Tracking.supported_backend)
    ∧ _compute_mlflow_params_from_objects Option.none = some []
    ∧ ∃ st, Tracking.init "proj" "exp" (.list ["console"]) Option.none
        ⟨Option.none, Option.none⟩ = .ok st
      ∧ st.logger.map Prod.fst = ["console"] := by
  have hm : "console" ∈ Tracking.supported_backend := by simp [Tracking.supported_backend]
  exact ⟨hm, rfl,
    C4_registry_contents.1 "console" hm "proj" "exp" Option.none ⟨Option.none, Option.none⟩ [] rfl⟩
